import Mathlib

set_option maxRecDepth 100000
set_option linter.dupNamespace false

deriving instance DecidableEq for Except

/-!
Verification of the send2teams repository (a CLI that validates and submits
Microsoft Teams webhook notifications).

The embedding mirrors the Go sources:

* namespace `Teams`  — `src/teams/teams.go` (webhook validation, EOL
  conversion, code formatting helpers);
* namespace `Config` — `src/unnamed/part_001` (the `config` package's
  `Config` struct and its `Validate` method).

Go strings are modelled as Lean `String`s (valid UTF-8); Go `len()` on a
string counts UTF-8 bytes and is modelled by `String.utf8ByteSize`.
Behaviour of external collaborators (`net/url`, `encoding/json`,
`go-teams-notify`) that the repository merely calls is modelled from the
spec where noted.
-/

namespace Send2Teams

/-- Go `len()` applied to a string: the number of UTF-8 bytes. -/
def goLen (s : String) : Nat := s.utf8ByteSize

/-- Go `strings.HasPrefix(s, pre)`: `pre` is a byte-prefix of `s`.  For valid
UTF-8 strings this coincides with the character-list prefix relation. -/
def goHasPrefix (s pre : String) : Bool := pre.data.isPrefixOf s.data

/-- Core of Go `strings.ReplaceAll`: replace the leftmost occurrence of
`pat` and continue scanning after the replacement text, never rescanning it.
The `Nat` fuel only bounds the recursion: every caller passes the input's
length, which is sufficient whenever `pat` is non-empty, so the
out-of-fuel branch (which returns the rest unchanged) is never reached. -/
def replaceAllAux (pat rep : List Char) : Nat → List Char → List Char
  | 0, s => s
  | _ + 1, [] => []
  | fuel + 1, c :: cs =>
    if pat ≠ [] ∧ pat.isPrefixOf (c :: cs) then
      rep ++ replaceAllAux pat rep fuel ((c :: cs).drop pat.length)
    else
      c :: replaceAllAux pat rep fuel cs

/-- Go `strings.ReplaceAll(s, old, new)` for non-empty `old`: replace all
non-overlapping occurrences, left to right. -/
def goReplaceAll (s pat rep : String) : String :=
  String.mk (replaceAllAux pat.data rep.data s.data.length s.data)

/-- Whether the character list contains `a` immediately followed by `b`;
used to state the invariants of the EOL conversion. -/
def hasPair (a b : Char) : List Char → Bool
  | x :: y :: rest => (x == a && y == b) || hasPair a b (y :: rest)
  | _ => false

namespace Teams

/-- `webhookURLOfficecomPrefix` from `teams.go`. -/
def webhookURLOfficecomPrefix : String := "https://outlook.office.com"

/-- `webhookURLOffice365Prefix` from `teams.go`. -/
def webhookURLOffice365Prefix : String := "https://outlook.office365.com"

/-- The errors `teams.go`'s webhook validation can produce, one constructor
per `fmt.Errorf` site: the incomplete-URL (too short) error of
`validateWebhookLength`, the unrecognized-host error of
`validateWebhookURLPrefix` (carrying the scheme+host string it reports), and
the pattern-mismatch error of `validateWebhookURLRegex`. -/
inductive WebhookError where
  | tooShort (url : String)
  | unrecognizedHost (schemeHost : String)
  | patternMismatch (url : String)
deriving DecidableEq

/-- Helper for `urlSchemeHost`: split a character list at the first
occurrence of `://`, returning the text before it and the text after it. -/
def schemeSplit : List Char → Option (List Char × List Char)
  | [] => none
  | c :: cs =>
    if [':', '/', '/'].isPrefixOf (c :: cs) then
      some ([], (c :: cs).drop 3)
    else
      match schemeSplit cs with
      | some (pre, post) => some (c :: pre, post)
      | none => none

/-- Modelled from the spec: the `net/url` parsing step of
`validateWebhookURLPrefix`, which reports "the actual scheme+host parsed
from the URL".  The scheme is the text before the first `://`, the host the
text after it up to the next `/`; a URL without `://` has empty scheme and
host (the spec does not describe a parse-failure path, so the model is
total). -/
def urlSchemeHost (s : String) : String :=
  match schemeSplit s.data with
  | some (scheme, rest) =>
    String.mk (scheme ++ [':', '/', '/'] ++ rest.takeWhile (fun c => c ≠ '/'))
  | none => "://"

/-- `validateWebhookLength` from `teams.go`: fail when the URL's byte length
is `<=` that of the shorter accepted host (`https://outlook.office.com`,
26 bytes). -/
def validateWebhookLength (webhookURL : String) : Except WebhookError Unit :=
  if goLen webhookURL ≤ goLen webhookURLOfficecomPrefix then
    .error (.tooShort webhookURL)
  else
    .ok ()

/-- `validateWebhookURLPrefix` from `teams.go`: accept a URL starting with
either accepted host, otherwise report the scheme+host parsed from it. -/
def validateWebhookURLPrefix (webhookURL : String) : Except WebhookError Unit :=
  if goHasPrefix webhookURL webhookURLOfficecomPrefix then .ok ()
  else if goHasPrefix webhookURL webhookURLOffice365Prefix then .ok ()
  else .error (.unrecognizedHost (urlSchemeHost webhookURL))

/-- A character of the regex class `[-a-zA-Z0-9]` used by the webhook id
segments of `validWebhookURLRegex`. -/
def isWebhookIdChar (c : Char) : Bool :=
  c == '-' || ('a' ≤ c && c ≤ 'z') || ('A' ≤ c && c ≤ 'Z') || ('0' ≤ c && c ≤ '9')

/-- Regex building block: consume the literal `lit` from the front of the
input, returning the rest. -/
def matchLit : List Char → List Char → Option (List Char)
  | [], cs => some cs
  | _ :: _, [] => none
  | l :: ls, c :: cs => if c = l then matchLit ls cs else none

/-- Regex building block: consume exactly `n` characters satisfying `p`. -/
def matchChars (p : Char → Bool) : Nat → List Char → Option (List Char)
  | 0, cs => some cs
  | _ + 1, [] => none
  | n + 1, c :: cs => if p c then matchChars p n cs else none

/-- Regex building block: the metacharacter `.`, matching any character
except a newline. -/
def matchDot : List Char → Option (List Char)
  | [] => none
  | c :: cs => if c = '\n' then none else some cs

/-- The part of `validWebhookURLRegex` after the `(?:365)?` group:
`.com\/webhook\/[-a-zA-Z0-9]{36}@[-a-zA-Z0-9]{36}\/IncomingWebhook\/`
`[-a-zA-Z0-9]{32}\/[-a-zA-Z0-9]{36}` (the two `.` are unescaped in the Go
pattern, hence wildcards). -/
def matchWebhookTail (cs : List Char) : Option (List Char) :=
  (matchDot cs).bind
    (matchLit "com/webhook/".data) |>.bind
    (matchChars isWebhookIdChar 36) |>.bind
    (matchLit "@".data) |>.bind
    (matchChars isWebhookIdChar 36) |>.bind
    (matchLit "/IncomingWebhook/".data) |>.bind
    (matchChars isWebhookIdChar 32) |>.bind
    (matchLit "/".data) |>.bind
    (matchChars isWebhookIdChar 36)

/-- The anchored pattern `validWebhookURLRegex` from `teams.go`:
`^https:\/\/outlook.office(?:365)?.com\/webhook\/[-a-zA-Z0-9]{36}@`
`[-a-zA-Z0-9]{36}\/IncomingWebhook\/[-a-zA-Z0-9]{32}\/[-a-zA-Z0-9]{36}$`.
A match exists iff either alternative of the optional `(?:365)?` group
consumes the whole string. -/
def validWebhookURLRegexMatch (s : String) : Bool :=
  let afterOffice :=
    ((matchLit "https://outlook".data s.data).bind matchDot).bind
      (matchLit "office".data)
  (afterOffice.bind (fun cs => (matchLit "365".data cs).bind matchWebhookTail)
      == some []) ||
  (afterOffice.bind matchWebhookTail == some [])

/-- `validateWebhookURLRegex` from `teams.go`: fail with the
pattern-mismatch error when `validWebhookURLRegex` does not match. -/
def validateWebhookURLRegex (webhookURL : String) : Except WebhookError Unit :=
  if validWebhookURLRegexMatch webhookURL then .ok ()
  else .error (.patternMismatch webhookURL)

/-- `ValidateWebhook` from `teams.go`: run the length, host, and pattern
checks in that order, returning the first failure. -/
def ValidateWebhook (webhookURL : String) : Except WebhookError Unit := do
  validateWebhookLength webhookURL
  validateWebhookURLPrefix webhookURL
  validateWebhookURLRegex webhookURL

/-- A webhook URL of the shape described by the spec:
`https://outlook.office(365)?.com/webhook/{a}@{b}/IncomingWebhook/{c}/{d}`,
with the four id segments given as character lists. -/
def webhookURLOfShape (use365 : Bool) (a b c d : List Char) : String :=
  (if use365 then webhookURLOffice365Prefix else webhookURLOfficecomPrefix) ++
    "/webhook/" ++ String.mk a ++ "@" ++ String.mk b ++ "/IncomingWebhook/" ++
    String.mk c ++ "/" ++ String.mk d

/-- The character list of the path part of `webhookURLOfShape` after
`/webhook/`: the four id segments with their separators. -/
def webhookPathChars (a b c d : List Char) : List Char :=
  a ++ "@".data ++ b ++ "/IncomingWebhook/".data ++ c ++ "/".data ++ d

/-- `breakStatement` from `teams.go`: used by Teams to separate lines. -/
def breakStatement : String := "<br>"

/-- `windowsEOLActual` from `teams.go`: CR LF. -/
def windowsEOLActual : String := "\r\n"

/-- `windowsEOLEscaped` from `teams.go`: the two-character escape sequences
backslash-r backslash-n. -/
def windowsEOLEscaped : String := "\\r\\n"

/-- `macEOLActual` from `teams.go`: CR. -/
def macEOLActual : String := "\r"

/-- `macEOLEscaped` from `teams.go`: backslash-r. -/
def macEOLEscaped : String := "\\r"

/-- `unixEOLActual` from `teams.go`: LF. -/
def unixEOLActual : String := "\n"

/-- `unixEOLEscaped` from `teams.go`: backslash-n. -/
def unixEOLEscaped : String := "\\n"

/-- `ConvertEOLToBreak` from `teams.go`: convert Windows (CR LF), Mac (CR)
and Unix (LF) line endings — both the literal control characters and their
escaped textual forms — into `<br>`, Windows first, then Mac, then Unix. -/
def ConvertEOLToBreak (s : String) : String :=
  let s := goReplaceAll s windowsEOLActual breakStatement
  let s := goReplaceAll s windowsEOLEscaped breakStatement
  let s := goReplaceAll s macEOLActual breakStatement
  let s := goReplaceAll s macEOLEscaped breakStatement
  let s := goReplaceAll s unixEOLActual breakStatement
  let s := goReplaceAll s unixEOLEscaped breakStatement
  s

/-- The character-list computation performed by `ConvertEOLToBreak`
(definitionally equal to it through `goReplaceAll`); exposed so that the
idempotence proof can work on lists. -/
def convertEOLData (l : List Char) : List Char :=
  let br := "<br>".data
  let l1 := replaceAllAux "\r\n".data br l.length l
  let l2 := replaceAllAux "\\r\\n".data br l1.length l1
  let l3 := replaceAllAux "\r".data br l2.length l2
  let l4 := replaceAllAux "\\r".data br l3.length l3
  let l5 := replaceAllAux "\n".data br l4.length l4
  replaceAllAux "\\n".data br l5.length l5

/-- Modelled from the spec: `encoding/json`'s whitespace characters (space,
tab, carriage return, line feed). -/
def jsonSpace (c : Char) : Bool :=
  c == ' ' || c == '\t' || c == '\r' || c == '\n'

/-- Skip JSON whitespace between tokens. -/
def skipWS (cs : List Char) : List Char := cs.dropWhile jsonSpace

/-- An ASCII decimal digit. -/
def isJSONDigit (c : Char) : Bool := '0' ≤ c && c ≤ '9'

/-- An ASCII hexadecimal digit. -/
def isJSONHexDigit (c : Char) : Bool :=
  isJSONDigit c || ('a' ≤ c && c ≤ 'f') || ('A' ≤ c && c ≤ 'F')

/-- Modelled from the spec: the JSON string scanner after the opening
quote.  Accepts the standard escapes and `u` plus four hex digits, rejects
control characters, and returns the raw content (escapes kept as written,
as Go's `Indent` copies string bytes unmodified) and the rest after the
closing quote. -/
def parseStringBody : List Char → Option (List Char × List Char)
  | [] => none
  | c :: cs =>
    if c = '"' then some ([], cs)
    else if c = '\\' then
      match cs with
      | [] => none
      | e :: cs2 =>
        if e = '"' ∨ e = '\\' ∨ e = '/' ∨ e = 'b' ∨ e = 'f' ∨ e = 'n' ∨ e = 'r' ∨ e = 't' then
          (parseStringBody cs2).map (fun p => (c :: e :: p.1, p.2))
        else if e = 'u' then
          match cs2 with
          | h1 :: h2 :: h3 :: h4 :: cs3 =>
            if isJSONHexDigit h1 && isJSONHexDigit h2 && isJSONHexDigit h3 && isJSONHexDigit h4 then
              (parseStringBody cs3).map (fun p => (c :: e :: h1 :: h2 :: h3 :: h4 :: p.1, p.2))
            else none
          | _ => none
        else none
    else if c.toNat < 0x20 then none
    else (parseStringBody cs).map (fun p => (c :: p.1, p.2))

/-- Modelled from the spec: the optional exponent part of a JSON number;
`acc` is the raw token consumed so far. -/
def numberExp (acc : List Char) (cs : List Char) : Option (List Char × List Char) :=
  match cs with
  | e :: t =>
    if e = 'e' ∨ e = 'E' then
      match t with
      | s :: t1 =>
        if s = '+' ∨ s = '-' then
          match t1.span isJSONDigit with
          | ([], _) => none
          | (ds, t2) => some (acc ++ e :: s :: ds, t2)
        else
          match t.span isJSONDigit with
          | ([], _) => none
          | (ds, t2) => some (acc ++ e :: ds, t2)
      | [] => none
    else some (acc, cs)
  | [] => some (acc, [])

/-- Modelled from the spec: the optional fraction part of a JSON number,
followed by the exponent part. -/
def numberFrac (acc : List Char) (cs : List Char) : Option (List Char × List Char) :=
  match cs with
  | '.' :: t =>
    match t.span isJSONDigit with
    | ([], _) => none
    | (ds, t2) => numberExp (acc ++ '.' :: ds) t2
  | _ => numberExp acc cs

/-- Modelled from the spec: the integer part of a JSON number (a lone `0`,
or a nonzero digit followed by digits), then fraction and exponent. -/
def parseNumberBody : List Char → Option (List Char × List Char)
  | c :: t =>
    if c = '0' then numberFrac [c] t
    else if '1' ≤ c ∧ c ≤ '9' then
      match t.span isJSONDigit with
      | (ds, t2) => numberFrac (c :: ds) t2
    else none
  | [] => none

/-- Modelled from the spec: a full JSON number token with optional leading
minus, returning the raw token and the rest. -/
def parseNumber (cs : List Char) : Option (List Char × List Char) :=
  match cs with
  | '-' :: t => (parseNumberBody t).map (fun p => ('-' :: p.1, p.2))
  | _ => parseNumberBody cs

/-- A newline followed by `depth` tabs, as `json.Indent` with an empty
prefix and a tab indent emits between elements. -/
def nlIndent (depth : Nat) : List Char := '\n' :: List.replicate depth '\t'

/-- The mode of the streaming indenter `emitJ`: at a value, inside an
object's member list, or inside an array's element list. -/
inductive EMode where
  | value
  | members
  | elems

/-- Modelled from the spec: the streaming core of Go's `json.Indent` with
prefix `""` and indent `"\t"` (the call `formatAsCode` makes).  Consumes
one value (or the members/elements of a container), dropping whitespace
between tokens and emitting the indented form: containers put each element
on its own line one tab deeper, object colons become `: `, and scalar
tokens are copied as written.  The fuel only bounds the recursion depth and
is passed ample by every caller; Go itself bounds nesting depth. -/
def emitJ : Nat → EMode → Nat → List Char → Option (List Char × List Char)
  | 0, _, _, _ => none
  | fuel + 1, .value, depth, cs =>
    match cs with
    | [] => none
    | c :: t =>
      if c = '"' then (parseStringBody t).map (fun p => ('"' :: p.1 ++ ['"'], p.2))
      else if c = '{' then
        match skipWS t with
        | '}' :: rest => some (['{', '}'], rest)
        | t2 => (emitJ fuel .members (depth + 1) t2).map (fun p =>
            ('{' :: nlIndent (depth + 1) ++ p.1 ++ nlIndent depth ++ ['}'], p.2))
      else if c = '[' then
        match skipWS t with
        | ']' :: rest => some (['[', ']'], rest)
        | t2 => (emitJ fuel .elems (depth + 1) t2).map (fun p =>
            ('[' :: nlIndent (depth + 1) ++ p.1 ++ nlIndent depth ++ [']'], p.2))
      else if c = 't' then
        if "rue".data.isPrefixOf t then some ("true".data, t.drop 3) else none
      else if c = 'f' then
        if "alse".data.isPrefixOf t then some ("false".data, t.drop 4) else none
      else if c = 'n' then
        if "ull".data.isPrefixOf t then some ("null".data, t.drop 3) else none
      else if c = '-' || isJSONDigit c then
        parseNumber cs
      else none
  | fuel + 1, .members, depth, cs =>
    match cs with
    | '"' :: t =>
      match parseStringBody t with
      | none => none
      | some (key, rest1) =>
        match skipWS rest1 with
        | ':' :: rest2 =>
          match emitJ fuel .value depth (skipWS rest2) with
          | none => none
          | some (vout, rest3) =>
            match skipWS rest3 with
            | ',' :: rest4 =>
              (emitJ fuel .members depth (skipWS rest4)).map (fun p =>
                (('"' :: key ++ ['"']) ++ ':' :: ' ' :: vout ++ ',' :: nlIndent depth ++ p.1,
                 p.2))
            | '}' :: rest4 => some (('"' :: key ++ ['"']) ++ ':' :: ' ' :: vout, rest4)
            | _ => none
        | _ => none
    | _ => none
  | fuel + 1, .elems, depth, cs =>
    match emitJ fuel .value depth cs with
    | none => none
    | some (vout, rest) =>
      match skipWS rest with
      | ',' :: rest2 => (emitJ fuel .elems depth (skipWS rest2)).map (fun p =>
          (vout ++ ',' :: nlIndent depth ++ p.1, p.2))
      | ']' :: rest2 => some (vout, rest2)
      | _ => none

/-- Modelled from the spec: `json.Indent(dst, src, "", "\t")` as used by
`formatAsCode`.  Leading whitespace is dropped, trailing whitespace after
the top-level value is preserved and copied to the output (both behaviours
are documented for Go's `Indent`), anything else after the value is an
error, and an invalid document is an error. -/
def goJSONIndent (s : String) : Option String :=
  match emitJ (2 * s.data.length + 2) .value 0 (skipWS s.data) with
  | none => none
  | some (out, rest) =>
    if rest.all jsonSpace then some (String.mk (out ++ rest))
    else none

/-- Modelled from the spec: `json.Valid`.  `Valid` and `Indent` share Go's
scanner and accept the same documents, so validity is modelled as
`goJSONIndent` succeeding. -/
def goJSONValid (s : String) : Bool := (goJSONIndent s).isSome

/-- A lowercase hex digit, as Go's encoder writes in `u00xx` escapes. -/
def jsonHexDigit (n : Nat) : Char :=
  if n < 10 then Char.ofNat ('0'.toNat + n) else Char.ofNat ('a'.toNat + n - 10)

/-- Modelled from the spec: how `json.Marshal` encodes one character of a
Go string with the default HTML escaping: quote, backslash, LF, CR and tab
get two-character escapes, other control characters become `u00xx`,
`<`, `>`, `&`, U+2028 and U+2029 become `u`-escapes, and everything else
is copied. -/
def marshalStringChar (c : Char) : List Char :=
  if c = '"' then ['\\', '"']
  else if c = '\\' then ['\\', '\\']
  else if c = '\n' then ['\\', 'n']
  else if c = '\r' then ['\\', 'r']
  else if c = '\t' then ['\\', 't']
  else if c.toNat < 0x20 then
    ['\\', 'u', '0', '0', jsonHexDigit (c.toNat / 16), jsonHexDigit (c.toNat % 16)]
  else if c = '<' then "\\u003c".data
  else if c = '>' then "\\u003e".data
  else if c = '&' then "\\u0026".data
  else if c.toNat = 0x2028 then "\\u2028".data
  else if c.toNat = 0x2029 then "\\u2029".data
  else [c]

/-- Modelled from the spec: `json.Marshal` of a string value: the escaped
content wrapped in double quotes. -/
def goJSONMarshalString (s : String) : String :=
  String.mk ('"' :: (s.data.flatMap marshalStringChar ++ ['"']))

/-- The failure modes of `formatAsCode`: the explicit empty-input error,
a `json.Indent` error, and `outOfRange`, which models the index-out-of-range
panic Go would take at `formattedJSON[0]` on an empty buffer (proved
unreachable). -/
inductive FormatError where
  | emptyInput
  | indentFailure
  | outOfRange
deriving DecidableEq

/-- The indented JSON buffer `formatAsCode` builds: the input itself when
it is already valid JSON (Go passes it through `json.RawMessage`
unchanged), otherwise the input marshalled into a JSON string literal,
either way run through `json.Indent`. -/
def formattedJSONOf (input : String) : Option String :=
  goJSONIndent (if goJSONValid input then input else goJSONMarshalString input)

/-- `formatAsCode` from `teams.go`: reject empty input, build the indented
JSON buffer, then inspect its first and last characters: when neither is a
double quote wrap content in the given code markers; when only the leading
quote is missing keep the content without the suffix; when only the
trailing quote is missing Go appends the suffix to the never-assigned
result variable (dropping the content, hence the bare `"" ++ sfx`); and in
the quoted case strip the outer quotes before wrapping. -/
def formatAsCode (input pfx sfx : String) : Except FormatError String :=
  if input = "" then .error .emptyInput
  else
    match formattedJSONOf input with
    | none => .error .indentFailure
    | some formattedJSON =>
      match formattedJSON.data with
      | [] => .error .outOfRange
      | c0 :: rest =>
        if c0 ≠ '"' ∧ (c0 :: rest).getLast (List.cons_ne_nil c0 rest) ≠ '"' then
          .ok (pfx ++ formattedJSON ++ sfx)
        else if c0 ≠ '"' then .ok (pfx ++ formattedJSON)
        else if (c0 :: rest).getLast (List.cons_ne_nil c0 rest) ≠ '"' then
          .ok ("" ++ sfx)
        else .ok (pfx ++ String.mk ((formattedJSON.data.drop 1).dropLast) ++ sfx)

/-- `msTeamsCodeBlockSubmissionPrefix` from `teams.go`. -/
def msTeamsCodeBlockSubmissionPrefix : String := "\n```\n"

/-- `msTeamsCodeBlockSubmissionSuffix` from `teams.go`. -/
def msTeamsCodeBlockSubmissionSuffix : String := "```\n"

/-- `msTeamsCodeSnippetSubmissionPrefix` from `teams.go`. -/
def msTeamsCodeSnippetSubmissionPrefix : String := "`"

/-- `msTeamsCodeSnippetSubmissionSuffix` from `teams.go`. -/
def msTeamsCodeSnippetSubmissionSuffix : String := "`"

/-- `FormatAsCodeBlock` from `teams.go`: reject the empty string, then
format as a fenced code block. -/
def FormatAsCodeBlock (input : String) : Except FormatError String :=
  if input = "" then .error .emptyInput
  else formatAsCode input msTeamsCodeBlockSubmissionPrefix msTeamsCodeBlockSubmissionSuffix

/-- `FormatAsCodeSnippet` from `teams.go`: reject the empty string, then
format as an inline code span. -/
def FormatAsCodeSnippet (input : String) : Except FormatError String :=
  if input = "" then .error .emptyInput
  else formatAsCode input msTeamsCodeSnippetSubmissionPrefix msTeamsCodeSnippetSubmissionSuffix

/-- `TryToFormatAsCodeBlock` from `teams.go`: on any formatting error
return the original string. -/
def TryToFormatAsCodeBlock (input : String) : String :=
  match FormatAsCodeBlock input with
  | .ok result => result
  | .error _ => input

/-- `TryToFormatAsCodeSnippet` from `teams.go`: on any formatting error
return the original string. -/
def TryToFormatAsCodeSnippet (input : String) : String :=
  match FormatAsCodeSnippet input with
  | .ok result => result
  | .error _ => input

end Teams

namespace Config

/-- `TargetURL` from the config package: a user-supplied URL (kept as the
raw string; `Validate` only ever counts these) and its description. -/
structure TargetURL where
  URL : String
  Description : String
deriving DecidableEq

/-- `UserMention` from the config package: the DisplayName and ID pair of a
mention recipient. -/
structure UserMention where
  ID : String
  Name : String
deriving DecidableEq

/-- `defaultMessageThemeColor` from the config package. -/
def defaultMessageThemeColor : String := "#832561"

/-- Modelled from the spec: `messagecard.PotentialActionMaxSupported` of
the external go-teams-notify library, "the maximum supported by the card
format (a fixed small integer, e.g., 4)". -/
def PotentialActionMaxSupported : Nat := 4

/-- `Config` from `src/unnamed/part_001`.  Field names follow the Go
struct.  `UserMentions` is an `Option` because `Validate` tests the Go
slice against `nil` (`c.UserMentions != nil`), a state distinct from an
empty slice; `TargetURLs` is a plain list because only its length is
ever used. -/
structure Config where
  Team : String
  Channel : String
  WebhookURL : String
  ThemeColor : String
  MessageTitle : String
  MessageText : String
  Sender : String
  TargetURLs : List TargetURL
  UserMentions : Option (List UserMention)
  Retries : Int
  RetriesDelay : Int
  DisableWebhookURLValidation : Bool
  IgnoreInvalidResponse : Bool
  VerboseOutput : Bool
  SilentOutput : Bool
  ConvertEOL : Bool
  ShowVersion : Bool
deriving DecidableEq

/-- The errors `Config.Validate` can produce, one constructor per
`fmt.Errorf` site in source order.  The first three correspond to the
messages "target urls flag is incompatible with user mentions flag",
"message title flag is incompatible with user mentions flag" and "theme
color flag is incompatible with user mentions flag", each naming the
conflicting flag. -/
inductive ConfigError where
  | userMentionTargetURLs
  | userMentionTitle
  | userMentionThemeColor
  | themeColorTooShort (color : String)
  | titleTooShort
  | tooManyTargetURLs (count : Nat)
  | conflictingOutputMode
  | messageTooShort
  | retriesTooShort
  | retriesDelayTooShort
  | webhookValidation (e : Teams.WebhookError)
deriving DecidableEq

/-- One fail-fast validation step: error when the condition holds. -/
def check (cond : Prop) [Decidable cond] (e : ConfigError) : Except ConfigError Unit :=
  if cond then .error e else .ok ()

/-- Modelled from the spec: the external go-teams-notify v2 client's
`ValidateWebhook`, called at the end of `Config.Validate`.  The spec's
Webhook Validator contract (length, host prefix, structural pattern) is
the repository's own validator, so that is used as the model; no claim
depends on this step. -/
def goteamsnotifyValidateWebhook (url : String) : Except Teams.WebhookError Unit :=
  Teams.ValidateWebhook url

/-- The "Shared/common validation checks" section of `Config.Validate`
(`src/unnamed/part_001`): output-mode conflict, message text, retries,
retries delay, then webhook validation unless disabled. -/
def validateCommon (c : Config) (disableWebhookURLValidation : Bool) :
    Except ConfigError Unit := do
  check ((c.SilentOutput && c.VerboseOutput) = true) .conflictingOutputMode
  check (c.MessageText = "") .messageTooShort
  check (c.Retries < 0) .retriesTooShort
  check (c.RetriesDelay < 0) .retriesDelayTooShort
  if disableWebhookURLValidation then .ok ()
  else (goteamsnotifyValidateWebhook c.WebhookURL).mapError .webhookValidation

/-- `Config.Validate` from `src/unnamed/part_001`: the user-mention switch
(mention-mode incompatibility checks, or the card-mode checks) followed by
the shared checks, failing fast in source order. -/
def Config.Validate (c : Config) (disableWebhookURLValidation : Bool) :
    Except ConfigError Unit := do
  (match c.UserMentions with
   | some _ => do
       check (c.TargetURLs.length > 0) .userMentionTargetURLs
       check (c.MessageTitle ≠ "") .userMentionTitle
       check (c.ThemeColor ≠ defaultMessageThemeColor) .userMentionThemeColor
   | none => do
       check (goLen c.ThemeColor < goLen defaultMessageThemeColor)
         (.themeColorTooShort c.ThemeColor)
       check (c.MessageTitle = "") .titleTooShort
       check (c.TargetURLs.length > PotentialActionMaxSupported)
         (.tooManyTargetURLs c.TargetURLs.length))
  validateCommon c disableWebhookURLValidation

/-- A baseline configuration mirroring the package's flag defaults, used to
build the concrete configurations of witnesses and counterexamples. -/
def baseConfig : Config :=
  { Team := "unspecified", Channel := "unspecified", WebhookURL := "",
    ThemeColor := defaultMessageThemeColor, MessageTitle := "", MessageText := "",
    Sender := "", TargetURLs := [], UserMentions := none, Retries := 2,
    RetriesDelay := 2, DisableWebhookURLValidation := false,
    IgnoreInvalidResponse := false, VerboseOutput := false, SilentOutput := false,
    ConvertEOL := false, ShowVersion := false }

end Config

/-!
Theorems.  General helper lemmas come first, then the per-claim theorems
with their witnesses and counterexamples.
-/

/-- The byte count underlying `String.utf8ByteSize` distributes over list
append. -/
theorem utf8ByteSize_go_append (l₁ l₂ : List Char) :
    String.utf8ByteSize.go (l₁ ++ l₂) =
      String.utf8ByteSize.go l₁ + String.utf8ByteSize.go l₂ := by
  induction l₁ with
  | nil => simp [String.utf8ByteSize.go]
  | cons c cs ih => simp [String.utf8ByteSize.go, ih]; omega

/-- Go `len()` adds over string concatenation. -/
theorem goLen_append (s t : String) : goLen (s ++ t) = goLen s + goLen t := by
  cases s with
  | mk l₁ =>
    cases t with
    | mk l₂ =>
      show String.utf8ByteSize.go (l₁ ++ l₂) = _
      exact utf8ByteSize_go_append l₁ l₂

/-- A string is a Go prefix of itself followed by anything. -/
theorem goHasPrefix_append_self (s t : String) : goHasPrefix (s ++ t) s = true := by
  simp [goHasPrefix, String.data_append, List.isPrefixOf_iff_prefix]

/-- Whether a short string is a Go prefix of `s ++ t` only depends on `s`
when `s` is at least as long as the candidate. -/
theorem goHasPrefix_append_of_le (s t pre : String)
    (h : pre.data.length ≤ s.data.length) :
    goHasPrefix (s ++ t) pre = goHasPrefix s pre := by
  simp only [goHasPrefix, String.data_append]
  rw [← Bool.coe_iff_coe]
  simp only [List.isPrefixOf_iff_prefix]
  constructor
  · intro hp
    have := List.prefix_iff_eq_take.mp hp
    rw [List.take_append_of_le_length h] at this
    exact List.prefix_iff_eq_take.mpr (by simpa using this)
  · intro hp
    exact hp.trans (List.prefix_append s.data t.data)

/-- Every character of a `replaceAllAux` result comes from the input or
from the replacement text. -/
theorem mem_replaceAllAux (pat rep : List Char) (x : Char) :
    ∀ (fuel : Nat) (s : List Char), x ∈ replaceAllAux pat rep fuel s → x ∈ s ∨ x ∈ rep := by
  intro fuel
  induction fuel with
  | zero => exact fun s h => Or.inl h
  | succ n ih =>
    intro s h
    cases s with
    | nil => exact Or.inl h
    | cons c cs =>
      rw [replaceAllAux] at h
      by_cases hcond : pat ≠ [] ∧ pat.isPrefixOf (c :: cs)
      · rw [if_pos hcond] at h
        rcases List.mem_append.mp h with hx | hx
        · exact Or.inr hx
        · rcases ih _ hx with hx | hx
          · exact Or.inl (List.mem_of_mem_drop hx)
          · exact Or.inr hx
      · rw [if_neg hcond] at h
        rcases List.mem_cons.mp h with hx | hx
        · exact Or.inl (by simp [hx])
        · rcases ih _ hx with hx | hx
          · exact Or.inl (List.mem_cons_of_mem _ hx)
          · exact Or.inr hx

/-- Replacing the single-character pattern `[c]` removes every occurrence
of `c`, provided `c` does not occur in the replacement and the fuel covers
the input. -/
theorem not_mem_replaceAllAux_single {c : Char} {rep : List Char} (hc : c ∉ rep) :
    ∀ (fuel : Nat) (s : List Char), s.length ≤ fuel →
      c ∉ replaceAllAux [c] rep fuel s := by
  intro fuel
  induction fuel with
  | zero =>
    intro s hs
    have hnil : s = [] := List.length_eq_zero.mp (Nat.le_zero.mp hs)
    subst hnil
    simp [replaceAllAux]
  | succ n ih =>
    intro s hs
    cases s with
    | nil => simp [replaceAllAux]
    | cons y xs =>
      have hxs : xs.length ≤ n := by
        simp only [List.length_cons] at hs
        omega
      rw [replaceAllAux]
      by_cases hx : y = c
      · rw [if_pos ⟨by simp, by simp [List.isPrefixOf_cons₂, hx]⟩]
        intro hmem
        rcases List.mem_append.mp hmem with h | h
        · exact hc h
        · exact ih xs hxs h
      · rw [if_neg (by
          rintro ⟨-, hpre⟩
          simp only [List.isPrefixOf_cons₂, List.isPrefixOf_nil_left, Bool.and_true,
            beq_iff_eq] at hpre
          exact hx hpre.symm)]
        intro hmem
        rcases List.mem_cons.mp hmem with h | h
        · exact hx h.symm
        · exact ih xs hxs h

/-- A pattern whose first character does not occur in the input never
matches, so the replacement is the identity. -/
theorem replaceAllAux_id_of_head_not_mem {p : Char} (ps rep : List Char) :
    ∀ (fuel : Nat) (s : List Char), p ∉ s →
      replaceAllAux (p :: ps) rep fuel s = s := by
  intro fuel
  induction fuel with
  | zero => exact fun s _ => rfl
  | succ n ih =>
    intro s hp
    cases s with
    | nil => rfl
    | cons y xs =>
      rw [replaceAllAux]
      rw [if_neg (by
        rintro ⟨-, hpre⟩
        simp only [List.isPrefixOf_cons₂, Bool.and_eq_true, beq_iff_eq] at hpre
        exact hp (hpre.1 ▸ List.mem_cons_self y xs))]
      rw [ih xs (fun h => hp (List.mem_cons_of_mem _ h))]

/-- Dropping the head preserves the absence of an adjacent pair. -/
theorem hasPair_tail {a b y : Char} {xs : List Char}
    (h : hasPair a b (y :: xs) = false) : hasPair a b xs = false := by
  cases xs with
  | nil => rfl
  | cons z t =>
    simp only [hasPair, Bool.or_eq_false_iff] at h
    exact h.2

/-- `List.drop` (a suffix) preserves the absence of an adjacent pair. -/
theorem hasPair_drop {a b : Char} (n : Nat) :
    ∀ {s : List Char}, hasPair a b s = false → hasPair a b (s.drop n) = false := by
  induction n with
  | zero => exact fun h => h
  | succ m ih =>
    intro s h
    cases s with
    | nil => rfl
    | cons y xs => exact ih (hasPair_tail h)

/-- A pattern starting with the two characters `a`, `b` never matches in a
list without an adjacent `(a, b)` pair, so the replacement is the
identity. -/
theorem replaceAllAux_id_of_no_pair {a b : Char} (ps rep : List Char) :
    ∀ (fuel : Nat) (s : List Char), hasPair a b s = false →
      replaceAllAux (a :: b :: ps) rep fuel s = s := by
  intro fuel
  induction fuel with
  | zero => exact fun s _ => rfl
  | succ n ih =>
    intro s hs
    cases s with
    | nil => rfl
    | cons y xs =>
      rw [replaceAllAux]
      rw [if_neg (by
        rintro ⟨-, hpre⟩
        cases xs with
        | nil => simp [List.isPrefixOf_cons₂] at hpre
        | cons z t =>
          simp only [List.isPrefixOf_cons₂, Bool.and_eq_true, beq_iff_eq] at hpre
          obtain ⟨hay, hbz, -⟩ := hpre
          simp only [hasPair, Bool.or_eq_false_iff, Bool.and_eq_false_iff] at hs
          rcases hs.1 with h | h
          · rw [hay] at h
            simp at h
          · rw [hbz] at h
            simp at h)]
      rw [ih xs (hasPair_tail hs)]

/-- An append has no `(a, b)` pair when neither part has one and the parts
do not form one at the boundary. -/
theorem hasPair_append_false {a b : Char} :
    ∀ (u : List Char) {v : List Char}, hasPair a b u = false → hasPair a b v = false →
      ¬(u.getLast? = some a ∧ v.head? = some b) → hasPair a b (u ++ v) = false := by
  intro u
  induction u with
  | nil =>
    intro v _ hv _
    simpa using hv
  | cons y u ih =>
    intro v hu hv hb
    cases u with
    | nil =>
      cases v with
      | nil => rfl
      | cons z t =>
        simp only [List.cons_append, List.nil_append, hasPair, Bool.or_eq_false_iff]
        refine ⟨?_, hv⟩
        by_cases hya : y = a
        · by_cases hzb : z = b
          · exact absurd ⟨by simp [hya], by simp [hzb]⟩ hb
          · simp [hzb]
        · simp [hya]
    | cons y2 u' =>
      simp only [List.cons_append, hasPair, Bool.or_eq_false_iff]
      constructor
      · simp only [hasPair, Bool.or_eq_false_iff] at hu
        exact hu.1
      · have h2 : hasPair a b (y2 :: u') = false := hasPair_tail hu
        have hb2 : ¬((y2 :: u').getLast? = some a ∧ v.head? = some b) := by
          rintro ⟨hga, hhb⟩
          exact hb ⟨by rw [List.getLast?_cons_cons]; exact hga, hhb⟩
        have := ih h2 hv hb2
        simpa [List.cons_append] using this

/-- The head of a `replaceAllAux` result is the input's head or the
replacement's head. -/
theorem head?_replaceAllAux (pat rep : List Char) (hrep : rep ≠ []) :
    ∀ (fuel : Nat) (s : List Char),
      (replaceAllAux pat rep fuel s).head? = s.head? ∨
      (replaceAllAux pat rep fuel s).head? = rep.head? := by
  intro fuel s
  cases fuel with
  | zero => exact Or.inl rfl
  | succ n =>
    cases s with
    | nil => exact Or.inl rfl
    | cons c cs =>
      rw [replaceAllAux]
      by_cases hcond : pat ≠ [] ∧ pat.isPrefixOf (c :: cs)
      · rw [if_pos hcond]
        right
        cases rep with
        | nil => exact absurd rfl hrep
        | cons r rs => rfl
      · rw [if_neg hcond]
        exact Or.inl rfl

/-- Replacement with a text that has no `(a, b)` pair, does not start with
`b` and does not end with `a` preserves the absence of `(a, b)` pairs. -/
theorem no_pair_preserved {a b : Char} (pat rep : List Char)
    (hrep : hasPair a b rep = false) (hh : rep.head? ≠ some b)
    (hl : rep.getLast? ≠ some a) (hne : rep ≠ []) :
    ∀ (fuel : Nat) (s : List Char), hasPair a b s = false →
      hasPair a b (replaceAllAux pat rep fuel s) = false := by
  intro fuel
  induction fuel with
  | zero => exact fun s hs => hs
  | succ n ih =>
    intro s hs
    cases s with
    | nil => rfl
    | cons c cs =>
      rw [replaceAllAux]
      by_cases hcond : pat ≠ [] ∧ pat.isPrefixOf (c :: cs)
      · rw [if_pos hcond]
        refine hasPair_append_false rep hrep (ih _ (hasPair_drop _ hs)) ?_
        rintro ⟨hga, -⟩
        exact hl hga
      · rw [if_neg hcond]
        have hR : hasPair a b (replaceAllAux pat rep n cs) = false :=
          ih _ (hasPair_tail hs)
        rw [show (c :: replaceAllAux pat rep n cs) =
          [c] ++ replaceAllAux pat rep n cs from rfl]
        refine hasPair_append_false [c] rfl hR ?_
        rintro ⟨hca, hRb⟩
        have hc : c = a := by simpa using hca
        rcases head?_replaceAllAux pat rep hne n cs with hhd | hhd
        · rw [hhd] at hRb
          cases cs with
          | nil => simp at hRb
          | cons z t =>
            have hz : z = b := by simpa using hRb
            simp only [hasPair, Bool.or_eq_false_iff, Bool.and_eq_false_iff] at hs
            rcases hs.1 with h | h
            · rw [hc] at h
              simp at h
            · rw [hz] at h
              simp at h
        · rw [hhd] at hRb
          exact hh hRb

/-- Replacing the two-character pattern `[a, b]` removes every adjacent
`(a, b)` pair (under the same conditions on the replacement text). -/
theorem no_pair_establish {a b : Char} (rep : List Char)
    (hrep : hasPair a b rep = false) (hh : rep.head? ≠ some b)
    (hl : rep.getLast? ≠ some a) (hne : rep ≠ []) :
    ∀ (fuel : Nat) (s : List Char), s.length ≤ fuel →
      hasPair a b (replaceAllAux [a, b] rep fuel s) = false := by
  intro fuel
  induction fuel with
  | zero =>
    intro s hs
    have hnil : s = [] := List.length_eq_zero.mp (Nat.le_zero.mp hs)
    subst hnil
    rfl
  | succ n ih =>
    intro s hs
    cases s with
    | nil => rfl
    | cons c cs =>
      have hcs : cs.length ≤ n := by
        simp only [List.length_cons] at hs
        omega
      rw [replaceAllAux]
      by_cases hcond : ([a, b] : List Char) ≠ [] ∧ [a, b].isPrefixOf (c :: cs)
      · rw [if_pos hcond]
        refine hasPair_append_false rep hrep (ih _ ?_) ?_
        · have : ((c :: cs).drop 2).length ≤ n := by
            simp only [List.length_drop, List.length_cons]
            omega
          exact this
        · rintro ⟨hga, -⟩
          exact hl hga
      · rw [if_neg hcond]
        have hR := ih cs hcs
        rw [show (c :: replaceAllAux [a, b] rep n cs) =
          [c] ++ replaceAllAux [a, b] rep n cs from rfl]
        refine hasPair_append_false [c] rfl hR ?_
        rintro ⟨hca, hRb⟩
        have hc : c = a := by simpa using hca
        have hnb : cs.head? ≠ some b := by
          intro hcsb
          apply hcond
          refine ⟨by simp, ?_⟩
          cases cs with
          | nil => simp at hcsb
          | cons z t =>
            have hz : z = b := by simpa using hcsb
            simp [List.isPrefixOf_cons₂, hc, hz]
        rcases head?_replaceAllAux [a, b] rep hne n cs with hhd | hhd
        · rw [hhd] at hRb
          exact hnb hRb
        · rw [hhd] at hRb
          exact hh hRb

namespace Teams

/-- C8: every webhook URL whose byte length is at most that of the shorter
accepted host prefix `https://outlook.office.com` (26 bytes) is rejected by
`ValidateWebhook` with the incomplete-webhook-URL (too short) error, and
every longer string passes the length check `validateWebhookLength`. -/
theorem validateWebhook_length_check (s : String) :
    (goLen s ≤ goLen webhookURLOfficecomPrefix →
      ValidateWebhook s = .error (.tooShort s)) ∧
    (goLen webhookURLOfficecomPrefix < goLen s →
      validateWebhookLength s = .ok ()) := by
  constructor
  · intro h
    simp only [ValidateWebhook, validateWebhookLength, if_pos h]
    rfl
  · intro h
    simp [validateWebhookLength, Nat.not_le.mpr h]

/-- C8 witness: the 13-byte string `https://short` is rejected as too short,
and a 27-byte string passes the length check. -/
theorem validateWebhook_length_check_witness :
    ValidateWebhook "https://short" = .error (.tooShort "https://short") ∧
    validateWebhookLength "https://outlook.office.com/" = .ok () :=
  ⟨(validateWebhook_length_check "https://short").1 (by decide),
   (validateWebhook_length_check "https://outlook.office.com/").2 (by decide)⟩

/-- C1 counterexample: `"foo"` starts with neither accepted host prefix, yet
`ValidateWebhook` rejects it with the too-short error rather than the
unrecognized-host error, because the length check runs first. -/
theorem validateWebhook_short_nonPrefix_tooShort :
    goHasPrefix "foo" webhookURLOfficecomPrefix = false ∧
    goHasPrefix "foo" webhookURLOffice365Prefix = false ∧
    ValidateWebhook "foo" = .error (.tooShort "foo") := by decide

/-- C1 (amended): every string that is longer than the 26-byte prefix
`https://outlook.office.com` and starts with neither accepted host prefix is
rejected by `ValidateWebhook` with the unrecognized-host error reporting the
scheme+host parsed from the URL. -/
theorem validateWebhook_unrecognizedHost (s : String)
    (hlen : goLen webhookURLOfficecomPrefix < goLen s)
    (h1 : goHasPrefix s webhookURLOfficecomPrefix = false)
    (h2 : goHasPrefix s webhookURLOffice365Prefix = false) :
    ValidateWebhook s = .error (.unrecognizedHost (urlSchemeHost s)) := by
  simp only [ValidateWebhook, validateWebhookLength, validateWebhookURLPrefix,
    if_neg (Nat.not_le.mpr hlen), h1, h2, Bool.false_eq_true, if_false]
  rfl

/-- C1 witness: a long non-Microsoft URL is rejected with the
unrecognized-host error reporting its scheme+host. -/
theorem validateWebhook_unrecognizedHost_witness :
    ValidateWebhook "https://example.com/webhook/aaaa" =
      .error (.unrecognizedHost "https://example.com") := by
  have h := validateWebhook_unrecognizedHost "https://example.com/webhook/aaaa"
    (by decide) (by decide) (by decide)
  rw [h]
  decide

/-- Unfolding lemma: the data of a `String.mk`. -/
theorem data_mk (l : List Char) : (String.mk l).data = l := rfl

/-- Go `len()` through the underlying character list. -/
theorem goLen_data (s : String) : goLen s = String.utf8ByteSize.go s.data := by
  cases s
  rfl

/-- `isPrefixOf` against an append only looks at the first list when that
list is at least as long as the candidate. -/
theorem isPrefixOf_append_of_le (l₁ l₂ r : List Char)
    (h : l₁.length ≤ l₂.length) :
    l₁.isPrefixOf (l₂ ++ r) = l₁.isPrefixOf l₂ := by
  induction l₁ generalizing l₂ with
  | nil => simp
  | cons x xs ih =>
    cases l₂ with
    | nil => simp at h
    | cons y ys =>
      simp only [List.cons_append, List.isPrefixOf_cons₂]
      rw [ih ys (by simpa using h)]

/-- Consuming a literal from itself followed by anything succeeds. -/
theorem matchLit_append (l r : List Char) : matchLit l (l ++ r) = some r := by
  induction l with
  | nil => rfl
  | cons x xs ih => simpa [matchLit] using ih

/-- A literal match fails when the heads differ. -/
theorem matchLit_cons_ne {l c : Char} (h : c ≠ l) (ls cs : List Char) :
    matchLit (l :: ls) (c :: cs) = none := by
  simp [matchLit, h]

/-- `matchChars` on a list whose characters all satisfy `p` consumes the
first `n` of them, failing only when fewer are available. -/
theorem matchChars_all {p : Char → Bool} (xs : List Char)
    (h : ∀ c ∈ xs, p c = true) (n : Nat) :
    matchChars p n xs = if n ≤ xs.length then some (xs.drop n) else none := by
  induction xs generalizing n with
  | nil =>
    cases n with
    | zero => simp [matchChars]
    | succ m => simp [matchChars]
  | cons x t ih =>
    cases n with
    | zero => simp [matchChars]
    | succ m =>
      have hx : p x = true := h x (List.mem_cons_self x t)
      have ht := ih (fun c hc => h c (List.mem_cons_of_mem x hc)) m
      simp [matchChars, hx, ht]

/-- `matchChars` over an all-`p` block followed by a separator that fails
`p`: it can only consume within the block. -/
theorem matchChars_append_sep {p : Char → Bool} {xs : List Char} {sep : Char}
    (h : ∀ c ∈ xs, p c = true) (hsep : p sep = false) (n : Nat)
    (rest : List Char) :
    matchChars p n (xs ++ sep :: rest) =
      if n ≤ xs.length then some (xs.drop n ++ sep :: rest) else none := by
  induction xs generalizing n with
  | nil =>
    cases n with
    | zero => simp [matchChars]
    | succ m => simp [matchChars, hsep]
  | cons x t ih =>
    cases n with
    | zero => simp [matchChars]
    | succ m =>
      have hx : p x = true := h x (List.mem_cons_self x t)
      have ht := ih (fun c hc => h c (List.mem_cons_of_mem x hc)) m
      simp [matchChars, hx, ht]

/-- A literal starting with the separator cannot match while undigested
block characters remain. -/
theorem matchLit_sep_drop {xs : List Char} {sep : Char} {p : Char → Bool}
    (h : ∀ c ∈ xs, p c = true) (hsep : p sep = false) {n : Nat}
    (hlt : n < xs.length) (ls rest : List Char) :
    matchLit (sep :: ls) (xs.drop n ++ rest) = none := by
  have hne : xs.drop n ≠ [] := by
    intro e
    rw [List.drop_eq_nil_iff] at e
    omega
  obtain ⟨ch, t, he⟩ := List.exists_cons_of_ne_nil hne
  have hch : p ch = true :=
    h ch (List.mem_of_mem_drop (he ▸ List.mem_cons_self ch t))
  have hne2 : ch ≠ sep := by
    intro e
    rw [e, hsep] at hch
    cases hch
  rw [he, List.cons_append]
  exact matchLit_cons_ne hne2 ls (t ++ rest)

/-- The wildcard consumes any non-newline head. -/
theorem matchDot_cons {c : Char} (h : c ≠ '\n') (cs : List Char) :
    matchDot (c :: cs) = some cs := by
  simp [matchDot, h]

/-- The `@` literal consumes a leading `@`. -/
theorem matchLit_at_cons (rest : List Char) :
    matchLit "@".data ('@' :: rest) = some rest := rfl

/-- The `/IncomingWebhook/` literal consumes itself. -/
theorem matchLit_inc_cons (rest : List Char) :
    matchLit "/IncomingWebhook/".data
      ('/' :: ("IncomingWebhook/".data ++ rest)) = some rest :=
  matchLit_append "/IncomingWebhook/".data rest

/-- The `/` literal consumes a leading slash. -/
theorem matchLit_sl_cons (rest : List Char) :
    matchLit "/".data ('/' :: rest) = some rest := rfl

/-- After an over-long first id segment the `@` literal cannot match. -/
theorem matchLit_at_drop {a : List Char}
    (ha : ∀ ch ∈ a, isWebhookIdChar ch = true) (hA : 36 < a.length)
    (rest : List Char) :
    matchLit "@".data (a.drop 36 ++ rest) = none :=
  matchLit_sep_drop ha (by decide) hA [] rest

/-- After an over-long second id segment `/IncomingWebhook/` cannot match. -/
theorem matchLit_inc_drop {b : List Char}
    (hb : ∀ ch ∈ b, isWebhookIdChar ch = true) (hB : 36 < b.length)
    (rest : List Char) :
    matchLit "/IncomingWebhook/".data (b.drop 36 ++ rest) = none :=
  matchLit_sep_drop hb (by decide) hB "IncomingWebhook/".data rest

/-- After an over-long third id segment the `/` literal cannot match. -/
theorem matchLit_sl_drop {c : List Char}
    (hc : ∀ ch ∈ c, isWebhookIdChar ch = true) (hC : 32 < c.length)
    (rest : List Char) :
    matchLit "/".data (c.drop 32 ++ rest) = none :=
  matchLit_sep_drop hc (by decide) hC [] rest

/-- The tail of the webhook pattern consumes the whole remaining input
exactly when the four id segments have lengths 36, 36, 32, 36. -/
theorem matchWebhookTail_shape (a b c d : List Char)
    (ha : ∀ ch ∈ a, isWebhookIdChar ch = true)
    (hb : ∀ ch ∈ b, isWebhookIdChar ch = true)
    (hc : ∀ ch ∈ c, isWebhookIdChar ch = true)
    (hd : ∀ ch ∈ d, isWebhookIdChar ch = true) :
    matchWebhookTail ('.' :: ("com/webhook/".data ++ webhookPathChars a b c d)) = some [] ↔
      (a.length = 36 ∧ b.length = 36 ∧ c.length = 32 ∧ d.length = 36) := by
  have hAt : isWebhookIdChar '@' = false := by decide
  have hSl : isWebhookIdChar '/' = false := by decide
  have hpath : webhookPathChars a b c d =
      a ++ '@' :: (b ++ '/' :: ("IncomingWebhook/".data ++ (c ++ '/' :: d))) := by
    simp only [webhookPathChars, List.append_assoc]
    rfl
  rw [hpath]
  simp only [matchWebhookTail]
  rw [matchDot_cons (by decide), Option.some_bind, matchLit_append, Option.some_bind,
    matchChars_append_sep ha hAt]
  rcases Nat.lt_trichotomy a.length 36 with hA | hA | hA
  · rw [if_neg (by omega)]
    simp only [Option.none_bind]
    constructor
    · intro hfalse
      exact Option.noConfusion hfalse
    · intro hlen
      omega
  · rw [if_pos (by omega), show a.drop 36 = [] from hA ▸ List.drop_length a,
      List.nil_append, Option.some_bind, matchLit_at_cons, Option.some_bind,
      matchChars_append_sep hb hSl]
    rcases Nat.lt_trichotomy b.length 36 with hB | hB | hB
    · rw [if_neg (by omega)]
      simp only [Option.none_bind]
      constructor
      · intro hfalse
        exact Option.noConfusion hfalse
      · intro hlen
        omega
    · rw [if_pos (by omega), show b.drop 36 = [] from hB ▸ List.drop_length b,
        List.nil_append, Option.some_bind, matchLit_inc_cons, Option.some_bind,
        matchChars_append_sep hc hSl]
      rcases Nat.lt_trichotomy c.length 32 with hC | hC | hC
      · rw [if_neg (by omega)]
        simp only [Option.none_bind]
        constructor
        · intro hfalse
          exact Option.noConfusion hfalse
        · intro hlen
          omega
      · rw [if_pos (by omega), show c.drop 32 = [] from hC ▸ List.drop_length c,
          List.nil_append, Option.some_bind, matchLit_sl_cons, Option.some_bind,
          matchChars_all d hd 36]
        rcases Nat.lt_trichotomy d.length 36 with hD | hD | hD
        · rw [if_neg (by omega)]
          constructor
          · intro hfalse
            exact Option.noConfusion hfalse
          · intro hlen
            omega
        · rw [if_pos (by omega), show d.drop 36 = [] from hD ▸ List.drop_length d]
          simp [hA, hB, hC, hD]
        · rw [if_pos (by omega)]
          simp only [Option.some.injEq, List.drop_eq_nil_iff]
          omega
      · rw [if_pos (by omega), Option.some_bind, matchLit_sl_drop hc hC, Option.none_bind]
        constructor
        · intro hfalse
          exact Option.noConfusion hfalse
        · intro hlen
          omega
    · rw [if_pos (by omega), Option.some_bind, matchLit_inc_drop hb hB, Option.none_bind,
        Option.none_bind, Option.none_bind]
      constructor
      · intro hfalse
        exact Option.noConfusion hfalse
      · intro hlen
        omega
  · rw [if_pos (by omega), Option.some_bind, matchLit_at_drop ha hA]
    simp only [Option.none_bind]
    constructor
    · intro hfalse
      exact Option.noConfusion hfalse
    · intro hlen
      omega

/-- The `365` literal cannot match at a `.`. -/
theorem matchLit_365_dot (rest : List Char) : matchLit "365".data ('.' :: rest) = none :=
  matchLit_cons_ne (by decide) "65".data rest

/-- The `com/webhook/` literal cannot match at a `6`. -/
theorem matchLit_com_6 (rest : List Char) : matchLit "com/webhook/".data ('6' :: rest) = none :=
  matchLit_cons_ne (by decide) "om/webhook/".data rest

/-- The whole webhook regex accepts a URL of the accepted shape exactly when
the four id segments have lengths 36, 36, 32, 36. -/
theorem validWebhookURLRegexMatch_shape (use365 : Bool) (a b c d : List Char)
    (ha : ∀ ch ∈ a, isWebhookIdChar ch = true)
    (hb : ∀ ch ∈ b, isWebhookIdChar ch = true)
    (hc : ∀ ch ∈ c, isWebhookIdChar ch = true)
    (hd : ∀ ch ∈ d, isWebhookIdChar ch = true) :
    validWebhookURLRegexMatch (webhookURLOfShape use365 a b c d) = true ↔
      (a.length = 36 ∧ b.length = 36 ∧ c.length = 32 ∧ d.length = 36) := by
  cases use365
  · have hdata : (webhookURLOfShape false a b c d).data =
        "https://outlook".data ++ '.' :: ("office".data ++
          '.' :: ("com/webhook/".data ++ webhookPathChars a b c d)) := by
      simp only [webhookURLOfShape, webhookPathChars, String.data_append, data_mk,
        List.append_assoc]
      rfl
    simp only [validWebhookURLRegexMatch]
    rw [hdata]
    rw [matchLit_append]
    simp only [Option.some_bind]
    rw [matchDot_cons (by decide)]
    simp only [Option.some_bind]
    rw [matchLit_append]
    simp only [Option.some_bind]
    rw [matchLit_365_dot]
    simp only [Option.none_bind]
    rw [show ((none : Option (List Char)) == some []) = false from rfl, Bool.false_or,
      beq_iff_eq]
    exact matchWebhookTail_shape a b c d ha hb hc hd
  · have hdata : (webhookURLOfShape true a b c d).data =
        "https://outlook".data ++ '.' :: ("office".data ++
          ("365".data ++ '.' :: ("com/webhook/".data ++ webhookPathChars a b c d))) := by
      simp only [webhookURLOfShape, webhookPathChars, String.data_append, data_mk,
        List.append_assoc]
      rfl
    simp only [validWebhookURLRegexMatch]
    rw [hdata]
    rw [matchLit_append]
    simp only [Option.some_bind]
    rw [matchDot_cons (by decide)]
    simp only [Option.some_bind]
    rw [matchLit_append]
    simp only [Option.some_bind]
    rw [matchLit_append]
    simp only [Option.some_bind]
    rw [show ∀ X : List Char, "365".data ++ '.' :: X = '3' :: ('6' :: ('5' :: ('.' :: X)))
      from fun _ => rfl]
    conv_lhs => rw [show matchWebhookTail ('3' :: ('6' :: ('5' :: ('.' ::
      ("com/webhook/".data ++ webhookPathChars a b c d))))) = none by
        simp only [matchWebhookTail]
        rw [matchDot_cons (by decide)]
        simp only [Option.some_bind]
        rw [matchLit_com_6]
        simp only [Option.none_bind]]
    rw [show ((none : Option (List Char)) == some []) = false from rfl, Bool.or_false,
      beq_iff_eq]
    exact matchWebhookTail_shape a b c d ha hb hc hd

/-- The data of a shaped webhook URL, host part fused. -/
theorem webhookURLOfShape_false_data_coarse (a b c d : List Char) :
    (webhookURLOfShape false a b c d).data =
      "https://outlook.office.com/webhook/".data ++ webhookPathChars a b c d := by
  simp only [webhookURLOfShape, webhookPathChars, String.data_append, data_mk,
    List.append_assoc]
  rfl

/-- The data of a shaped office365 webhook URL, host part fused. -/
theorem webhookURLOfShape_true_data_coarse (a b c d : List Char) :
    (webhookURLOfShape true a b c d).data =
      "https://outlook.office365.com/webhook/".data ++ webhookPathChars a b c d := by
  simp only [webhookURLOfShape, webhookPathChars, String.data_append, data_mk,
    List.append_assoc]
  rfl

/-- Every shaped webhook URL is longer than the 26-byte host prefix. -/
theorem goLen_webhookURLOfShape (use365 : Bool) (a b c d : List Char) :
    goLen webhookURLOfficecomPrefix < goLen (webhookURLOfShape use365 a b c d) := by
  have h0 : goLen webhookURLOfficecomPrefix = 26 := by decide
  cases use365
  · rw [h0, goLen_data, webhookURLOfShape_false_data_coarse, utf8ByteSize_go_append]
    have h1 : String.utf8ByteSize.go "https://outlook.office.com/webhook/".data = 35 := by
      decide
    omega
  · rw [h0, goLen_data, webhookURLOfShape_true_data_coarse, utf8ByteSize_go_append]
    have h1 : String.utf8ByteSize.go "https://outlook.office365.com/webhook/".data = 38 := by
      decide
    omega

/-- Every shaped webhook URL passes the host-prefix check. -/
theorem validateWebhookURLPrefix_shape (use365 : Bool) (a b c d : List Char) :
    validateWebhookURLPrefix (webhookURLOfShape use365 a b c d) = .ok () := by
  cases use365
  · have hp : goHasPrefix (webhookURLOfShape false a b c d) webhookURLOfficecomPrefix = true := by
      unfold goHasPrefix
      rw [webhookURLOfShape_false_data_coarse, isPrefixOf_append_of_le _ _ _ (by decide)]
      decide
    simp [validateWebhookURLPrefix, hp]
  · have hp1 : goHasPrefix (webhookURLOfShape true a b c d) webhookURLOfficecomPrefix = false := by
      unfold goHasPrefix
      rw [webhookURLOfShape_true_data_coarse, isPrefixOf_append_of_le _ _ _ (by decide)]
      decide
    have hp2 : goHasPrefix (webhookURLOfShape true a b c d) webhookURLOffice365Prefix = true := by
      unfold goHasPrefix
      rw [webhookURLOfShape_true_data_coarse, isPrefixOf_append_of_le _ _ _ (by decide)]
      decide
    simp [validateWebhookURLPrefix, hp1, hp2]

/-- C2: a URL of the accepted shape (either host) whose four alnum-or-hyphen
id segments have lengths 36, 36, 32, 36 passes `ValidateWebhook` with no
error, and the same shape with any other combination of segment lengths is
rejected with the pattern-mismatch error. -/
theorem validateWebhook_pattern (use365 : Bool) (a b c d : List Char)
    (ha : ∀ ch ∈ a, isWebhookIdChar ch = true)
    (hb : ∀ ch ∈ b, isWebhookIdChar ch = true)
    (hc : ∀ ch ∈ c, isWebhookIdChar ch = true)
    (hd : ∀ ch ∈ d, isWebhookIdChar ch = true) :
    (a.length = 36 ∧ b.length = 36 ∧ c.length = 32 ∧ d.length = 36 →
      ValidateWebhook (webhookURLOfShape use365 a b c d) = .ok ()) ∧
    (¬(a.length = 36 ∧ b.length = 36 ∧ c.length = 32 ∧ d.length = 36) →
      ValidateWebhook (webhookURLOfShape use365 a b c d) =
        .error (.patternMismatch (webhookURLOfShape use365 a b c d))) := by
  have hlen : validateWebhookLength (webhookURLOfShape use365 a b c d) = .ok () := by
    unfold validateWebhookLength
    rw [if_neg (Nat.not_le.mpr (goLen_webhookURLOfShape use365 a b c d))]
  have hpre := validateWebhookURLPrefix_shape use365 a b c d
  have hVW : ValidateWebhook (webhookURLOfShape use365 a b c d) =
      validateWebhookURLRegex (webhookURLOfShape use365 a b c d) := by
    unfold ValidateWebhook
    rw [hlen, hpre]
    rfl
  constructor
  · intro h
    rw [hVW]
    unfold validateWebhookURLRegex
    rw [if_pos ((validWebhookURLRegexMatch_shape use365 a b c d ha hb hc hd).mpr h)]
  · intro h
    rw [hVW]
    unfold validateWebhookURLRegex
    rw [if_neg (fun hm => h ((validWebhookURLRegexMatch_shape use365 a b c d ha hb hc hd).mp hm))]

/-- C2 witness: a concrete URL with segment lengths 36, 36, 32, 36 passes,
and the same URL with a 37-character first segment fails with the
pattern-mismatch error. -/
theorem validateWebhook_pattern_witness :
    ValidateWebhook (webhookURLOfShape false (List.replicate 36 'a')
      (List.replicate 36 'b') (List.replicate 32 'c') (List.replicate 36 'd')) = .ok () ∧
    ValidateWebhook (webhookURLOfShape false (List.replicate 37 'a')
      (List.replicate 36 'b') (List.replicate 32 'c') (List.replicate 36 'd')) =
      .error (.patternMismatch (webhookURLOfShape false (List.replicate 37 'a')
        (List.replicate 36 'b') (List.replicate 32 'c') (List.replicate 36 'd'))) :=
  ⟨(validateWebhook_pattern false (List.replicate 36 'a') (List.replicate 36 'b')
      (List.replicate 32 'c') (List.replicate 36 'd')
      (by decide) (by decide) (by decide) (by decide)).1 (by decide),
   (validateWebhook_pattern false (List.replicate 37 'a') (List.replicate 36 'b')
      (List.replicate 32 'c') (List.replicate 36 'd')
      (by decide) (by decide) (by decide) (by decide)).2 (by decide)⟩

/-- `ConvertEOLToBreak` computed on the underlying character list. -/
theorem ConvertEOLToBreak_data (s : String) :
    (ConvertEOLToBreak s).data = convertEOLData s.data := rfl

/-- After conversion no literal carriage return remains. -/
theorem convertEOLData_no_cr (l : List Char) : '\r' ∉ convertEOLData l := by
  simp only [convertEOLData]
  intro h
  rcases mem_replaceAllAux _ _ _ _ _ h with h | h
  · rcases mem_replaceAllAux _ _ _ _ _ h with h | h
    · rcases mem_replaceAllAux _ _ _ _ _ h with h | h
      · exact not_mem_replaceAllAux_single (by decide) _ _ le_rfl h
      · exact absurd h (by decide)
    · exact absurd h (by decide)
  · exact absurd h (by decide)

/-- After conversion no literal line feed remains. -/
theorem convertEOLData_no_lf (l : List Char) : '\n' ∉ convertEOLData l := by
  simp only [convertEOLData]
  intro h
  rcases mem_replaceAllAux _ _ _ _ _ h with h | h
  · exact not_mem_replaceAllAux_single (by decide) _ _ le_rfl h
  · exact absurd h (by decide)

/-- After conversion no escaped-CR pair (backslash then `r`) remains. -/
theorem convertEOLData_no_pair_r (l : List Char) :
    hasPair '\\' 'r' (convertEOLData l) = false := by
  simp only [convertEOLData]
  apply no_pair_preserved _ _ (by decide) (by decide) (by decide) (by decide)
  apply no_pair_preserved _ _ (by decide) (by decide) (by decide) (by decide)
  exact no_pair_establish _ (by decide) (by decide) (by decide) (by decide) _ _ le_rfl

/-- After conversion no escaped-LF pair (backslash then `n`) remains. -/
theorem convertEOLData_no_pair_n (l : List Char) :
    hasPair '\\' 'n' (convertEOLData l) = false := by
  simp only [convertEOLData]
  exact no_pair_establish _ (by decide) (by decide) (by decide) (by decide) _ _ le_rfl

/-- A list that contains none of the six EOL patterns is a fixed point of
the conversion. -/
theorem convertEOLData_fixed {m : List Char} (h1 : '\r' ∉ m) (h2 : '\n' ∉ m)
    (h3 : hasPair '\\' 'r' m = false) (h4 : hasPair '\\' 'n' m = false) :
    convertEOLData m = m := by
  simp only [convertEOLData]
  rw [replaceAllAux_id_of_head_not_mem _ _ _ _ h1]
  rw [replaceAllAux_id_of_no_pair _ _ _ _ h3]
  rw [replaceAllAux_id_of_head_not_mem _ _ _ _ h1]
  rw [replaceAllAux_id_of_no_pair _ _ _ _ h3]
  rw [replaceAllAux_id_of_head_not_mem _ _ _ _ h2]
  rw [replaceAllAux_id_of_no_pair _ _ _ _ h4]

/-- Strings with the same character data are equal. -/
theorem string_data_inj {a b : String} (h : a.data = b.data) : a = b := by
  cases a
  cases b
  exact congrArg String.mk h

/-- C6: EOL conversion is idempotent: applying `ConvertEOLToBreak` to
already-converted text is a no-op. -/
theorem ConvertEOLToBreak_idempotent (s : String) :
    ConvertEOLToBreak (ConvertEOLToBreak s) = ConvertEOLToBreak s := by
  apply string_data_inj
  simp only [ConvertEOLToBreak_data]
  exact convertEOLData_fixed (convertEOLData_no_cr s.data) (convertEOLData_no_lf s.data)
    (convertEOLData_no_pair_r s.data) (convertEOLData_no_pair_n s.data)

/-- C7: mixed literal and escaped line endings are converted in one pass:
the literal CR LF and the escaped backslash-n token of
`line1<CR><LF>line2\backslash-n\line3` each become a single `<br>`. -/
theorem ConvertEOLToBreak_mixed :
    ConvertEOLToBreak "line1\r\nline2\\nline3" = "line1<br>line2<br>line3" := by decide

/-- The exponent stage never shrinks the token: a non-empty accumulator
gives a non-empty token. -/
theorem numberExp_ne_nil {acc cs tok r} (hacc : acc ≠ [])
    (h : numberExp acc cs = some (tok, r)) : tok ≠ [] := by
  unfold numberExp at h
  split at h
  · split at h
    · split at h
      · split at h
        · split at h
          · exact absurd h (by simp)
          · cases h
            simp
        · split at h
          · exact absurd h (by simp)
          · cases h
            simp
      · exact absurd h (by simp)
    · cases h
      exact hacc
  · cases h
    exact hacc

/-- The fraction stage gives a non-empty token from a non-empty
accumulator. -/
theorem numberFrac_ne_nil {acc cs tok r} (hacc : acc ≠ [])
    (h : numberFrac acc cs = some (tok, r)) : tok ≠ [] := by
  unfold numberFrac at h
  split at h
  · split at h
    · exact absurd h (by simp)
    · exact numberExp_ne_nil (by simp) h
  · exact numberExp_ne_nil hacc h

/-- A parsed number token is never empty. -/
theorem parseNumberBody_ne_nil {cs tok r} (h : parseNumberBody cs = some (tok, r)) :
    tok ≠ [] := by
  cases cs with
  | nil => exact absurd h (by simp [parseNumberBody])
  | cons c t =>
    simp only [parseNumberBody] at h
    by_cases h0 : c = '0'
    · rw [if_pos h0] at h
      exact numberFrac_ne_nil (by simp) h
    · rw [if_neg h0] at h
      by_cases h1 : '1' ≤ c ∧ c ≤ '9'
      · rw [if_pos h1] at h
        rcases hsp : t.span isJSONDigit with ⟨ds, t2⟩
        rw [hsp] at h
        exact numberFrac_ne_nil (by simp) h
      · rw [if_neg h1] at h
        exact absurd h (by simp)

/-- A parsed signed number token is never empty. -/
theorem parseNumber_ne_nil {cs tok r} (h : parseNumber cs = some (tok, r)) :
    tok ≠ [] := by
  unfold parseNumber at h
  split at h
  · rcases Option.map_eq_some'.mp h with ⟨p, -, hp⟩
    cases hp
    simp
  · exact parseNumberBody_ne_nil h

/-- The indenter's output for a value is never empty: it starts with a
quote, bracket, brace, literal or number character. -/
theorem emitJ_value_ne_nil {fuel depth cs out rest}
    (h : emitJ fuel .value depth cs = some (out, rest)) : out ≠ [] := by
  cases fuel with
  | zero => exact absurd h (by simp [emitJ])
  | succ n =>
    unfold emitJ at h
    split at h
    · exact absurd h (by simp)
    · split at h
      · rcases Option.map_eq_some'.mp h with ⟨p, -, hp⟩
        cases hp
        simp
      · split at h
        · split at h
          · cases h
            simp
          · rcases Option.map_eq_some'.mp h with ⟨p, -, hp⟩
            cases hp
            simp
        · split at h
          · split at h
            · cases h
              simp
            · rcases Option.map_eq_some'.mp h with ⟨p, -, hp⟩
              cases hp
              simp
          · split at h
            · split at h
              · cases h
                decide
              · exact absurd h (by simp)
            · split at h
              · split at h
                · cases h
                  decide
                · exact absurd h (by simp)
              · split at h
                · split at h
                  · cases h
                    decide
                  · exact absurd h (by simp)
                · split at h
                  · exact parseNumber_ne_nil h
                  · exact absurd h (by simp)

/-- A successful `json.Indent` never returns an empty buffer. -/
theorem goJSONIndent_ne_empty {s : String} {out : String}
    (h : goJSONIndent s = some out) : out ≠ "" := by
  unfold goJSONIndent at h
  split at h
  · exact absurd h (by simp)
  · rename_i o r heq
    split at h
    · cases h
      intro hcon
      have hdata : o ++ r = ([] : List Char) := congrArg String.data hcon
      exact emitJ_value_ne_nil heq (by simpa using (List.append_eq_nil.mp hdata).1)
    · exact absurd h (by simp)

/-- The indented JSON buffer `formatAsCode` inspects is never empty. -/
theorem formattedJSONOf_ne_empty {input fj : String}
    (h : formattedJSONOf input = some fj) : fj ≠ "" :=
  goJSONIndent_ne_empty h

/-- C10: `formatAsCode` never indexes out of range: the empty string is
rejected before any indexing, and on every path that reaches the
quote-inspection step the indented JSON buffer is non-empty, so the first
and last positions Go reads exist; the modelled out-of-range panic is
unreachable. -/
theorem formatAsCode_safe (input pfx sfx : String) :
    formatAsCode "" pfx sfx = .error .emptyInput ∧
    (∀ fj, formattedJSONOf input = some fj → fj ≠ "") ∧
    formatAsCode input pfx sfx ≠ .error .outOfRange := by
  refine ⟨rfl, fun fj hfj => formattedJSONOf_ne_empty hfj, ?_⟩
  unfold formatAsCode
  split
  · simp
  · split
    · simp
    · rename_i hne hfj
      split
      · rename_i hnil
        exact absurd (string_data_inj (by simpa using hnil)) (formattedJSONOf_ne_empty hfj)
      · split
        · simp
        · split
          · simp
          · split
            · simp
            · simp

/-- C10 witness: for the input `hello` the indented buffer is the
non-empty quoted string, and no out-of-range access occurs. -/
theorem formatAsCode_safe_witness :
    (("\"hello\"" : String) ≠ "") ∧
    formatAsCode "hello" msTeamsCodeBlockSubmissionPrefix msTeamsCodeBlockSubmissionSuffix ≠
      .error .outOfRange :=
  ⟨(formatAsCode_safe "hello" msTeamsCodeBlockSubmissionPrefix
      msTeamsCodeBlockSubmissionSuffix).2.1 "\"hello\"" (by decide),
   (formatAsCode_safe "hello" msTeamsCodeBlockSubmissionPrefix
      msTeamsCodeBlockSubmissionSuffix).2.2⟩

/-- C9: the strict formatters reject the empty string with an error (and
an empty result), and the best-effort wrappers return the strict result on
success and the original input unchanged on error. -/
theorem format_strict_and_besteffort :
    FormatAsCodeBlock "" = .error .emptyInput ∧
    FormatAsCodeSnippet "" = .error .emptyInput ∧
    (∀ input r, FormatAsCodeBlock input = .ok r → TryToFormatAsCodeBlock input = r) ∧
    (∀ input e, FormatAsCodeBlock input = .error e → TryToFormatAsCodeBlock input = input) ∧
    (∀ input r, FormatAsCodeSnippet input = .ok r → TryToFormatAsCodeSnippet input = r) ∧
    (∀ input e, FormatAsCodeSnippet input = .error e → TryToFormatAsCodeSnippet input = input) := by
  refine ⟨rfl, rfl, ?_, ?_, ?_, ?_⟩ <;>
    intro input x h <;>
    first
      | (unfold TryToFormatAsCodeBlock; rw [h])
      | (unfold TryToFormatAsCodeSnippet; rw [h])

/-- C9 witness: the wrappers fall back to the original (empty) input where
the strict formatters fail, and return the formatted block for `hello`. -/
theorem format_strict_and_besteffort_witness :
    TryToFormatAsCodeBlock "" = "" ∧
    TryToFormatAsCodeBlock "hello" = "\n```\nhello```\n" ∧
    TryToFormatAsCodeSnippet "" = "" :=
  ⟨format_strict_and_besteffort.2.2.2.1 "" .emptyInput
      format_strict_and_besteffort.1,
   format_strict_and_besteffort.2.2.1 "hello" "\n```\nhello```\n" (by decide),
   format_strict_and_besteffort.2.2.2.2.2 "" .emptyInput
      format_strict_and_besteffort.2.1⟩

/-- C3 (failing case): the input consisting of a valid JSON string
followed by a trailing space survives `json.Indent` unchanged, so the
buffer starts with a quote but does not end with one, and
`FormatAsCodeBlock` returns only the closing fence: the formatted content
is dropped. -/
theorem formatAsCode_trailing_space_drops_content :
    goJSONValid "\"hi\" " = true ∧
    formattedJSONOf "\"hi\" " = some "\"hi\" " ∧
    FormatAsCodeBlock "\"hi\" " = .ok msTeamsCodeBlockSubmissionSuffix :=
  ⟨by decide, by decide, by decide⟩

end Teams

namespace Config

/-- A check whose condition holds fails with its error. -/
theorem check_pos {p : Prop} [Decidable p] (h : p) (e : ConfigError) :
    check p e = .error e := if_pos h

/-- A check whose condition fails succeeds. -/
theorem check_neg {p : Prop} [Decidable p] (h : ¬p) (e : ConfigError) :
    check p e = .ok () := if_neg h

/-- Bind on a successful `Except` runs the continuation. -/
theorem exbind_ok {ε α β : Type} (a : α) (f : α → Except ε β) :
    ((Except.ok a : Except ε α) >>= f) = f a := rfl

/-- Bind on a failed `Except` short-circuits. -/
theorem exbind_error {ε α β : Type} (e : ε) (f : α → Except ε β) :
    ((Except.error e : Except ε α) >>= f) = Except.error e := rfl


/-- The shared checks only produce shared errors, never a mention-mode
incompatibility error. -/
theorem validateCommon_error (c : Config) (d : Bool) (e : ConfigError)
    (h : validateCommon c d = .error e) :
    e = .conflictingOutputMode ∨ e = .messageTooShort ∨ e = .retriesTooShort ∨
    e = .retriesDelayTooShort ∨ ∃ w, e = .webhookValidation w := by
  unfold validateCommon at h
  by_cases h1 : (c.SilentOutput && c.VerboseOutput) = true
  · rw [check_pos h1, exbind_error] at h
    exact Or.inl (Except.error.inj h).symm
  · rw [check_neg h1, exbind_ok] at h
    by_cases h2 : c.MessageText = ""
    · rw [check_pos h2, exbind_error] at h
      exact Or.inr (Or.inl (Except.error.inj h).symm)
    · rw [check_neg h2, exbind_ok] at h
      by_cases h3 : c.Retries < 0
      · rw [check_pos h3, exbind_error] at h
        exact Or.inr (Or.inr (Or.inl (Except.error.inj h).symm))
      · rw [check_neg h3, exbind_ok] at h
        by_cases h4 : c.RetriesDelay < 0
        · rw [check_pos h4, exbind_error] at h
          exact Or.inr (Or.inr (Or.inr (Or.inl (Except.error.inj h).symm)))
        · rw [check_neg h4, exbind_ok] at h
          cases d with
          | true => exact absurd h (by simp)
          | false =>
            cases hw : goteamsnotifyValidateWebhook c.WebhookURL with
            | ok u =>
              rw [if_neg (by simp), hw] at h
              exact absurd h (by simp [Except.mapError])
            | error w =>
              rw [if_neg (by simp), hw] at h
              have h' : Except.error (ConfigError.webhookValidation w) = Except.error e := h
              exact Or.inr (Or.inr (Or.inr (Or.inr ⟨w, (Except.error.inj h').symm⟩)))

/-- C4 (amended): when both silent and verbose output are set and the
mode-specific checks that run first pass (mention mode: no target URLs,
empty title, default theme color; card mode: theme color long enough,
non-empty title, at most the supported number of target URLs),
`Config.Validate` fails with the conflicting-output-mode error, regardless
of all other fields. -/
theorem validate_conflicting_output (c : Config) (d : Bool)
    (hs : c.SilentOutput = true) (hv : c.VerboseOutput = true)
    (hmention : ∀ ms, c.UserMentions = some ms →
      c.TargetURLs = [] ∧ c.MessageTitle = "" ∧ c.ThemeColor = defaultMessageThemeColor)
    (hcard : c.UserMentions = none →
      goLen defaultMessageThemeColor ≤ goLen c.ThemeColor ∧ c.MessageTitle ≠ "" ∧
      c.TargetURLs.length ≤ PotentialActionMaxSupported) :
    Config.Validate c d = .error .conflictingOutputMode := by
  have hcommon : validateCommon c d = .error .conflictingOutputMode := by
    unfold validateCommon
    rw [check_pos (by simp [hs, hv]), exbind_error]
  unfold Config.Validate
  cases hum : c.UserMentions with
  | some ms =>
    obtain ⟨h1, h2, h3⟩ := hmention ms hum
    rw [check_neg (by simp [h1]), exbind_ok, check_neg (by simp [h2]), exbind_ok,
      check_neg (by simp [h3]), exbind_ok]
    exact hcommon
  | none =>
    obtain ⟨h1, h2, h3⟩ := hcard hum
    have hc1 : ¬(goLen c.ThemeColor < goLen defaultMessageThemeColor) := by omega
    have hc3 : ¬(c.TargetURLs.length > PotentialActionMaxSupported) := by omega
    rw [check_neg hc1, exbind_ok, check_neg h2, exbind_ok, check_neg hc3, exbind_ok]
    exact hcommon

/-- C4 witness: a card-mode configuration with both output flags set is
rejected with the conflicting-output-mode error. -/
theorem validate_conflicting_output_witness :
    Config.Validate { baseConfig with
      MessageTitle := "Title",
      MessageText := "msg",
      SilentOutput := true,
      VerboseOutput := true } true =
      .error .conflictingOutputMode :=
  validate_conflicting_output _ _ (by decide) (by decide)
    (fun ms h => by cases h) (fun _ => by decide)

/-- C4 counterexample: a configuration with user mentions, a target URL and
both output flags set is rejected with the mention/target-URL
incompatibility error, not the conflicting-output-mode error, because the
mention-mode checks run first. -/
theorem validate_both_outputs_not_conflicting :
    (Config.Validate { baseConfig with
        UserMentions := some [{ ID := "uid", Name := "User" }],
        TargetURLs := [{ URL := "https://example.com", Description := "link" }],
        MessageText := "msg", SilentOutput := true, VerboseOutput := true } true =
      .error .userMentionTargetURLs) ∧
    (Config.Validate { baseConfig with
        UserMentions := some [{ ID := "uid", Name := "User" }],
        TargetURLs := [{ URL := "https://example.com", Description := "link" }],
        MessageText := "msg", SilentOutput := true, VerboseOutput := true } true ≠
      .error .conflictingOutputMode) := by
  constructor
  · decide
  · decide

/-- C5: in mention mode (non-nil user mentions), any supplied target URL,
non-empty title, or non-default theme color makes `Config.Validate` fail
with the corresponding incompatible-option error (whose message names the
conflicting flag), and when none of these deviations is present the
mention-mode checks pass (the result is never one of those errors). -/
theorem validate_mention_mode (c : Config) (d : Bool) (ms : List UserMention)
    (hm : c.UserMentions = some ms) :
    ((c.TargetURLs ≠ [] ∨ c.MessageTitle ≠ "" ∨ c.ThemeColor ≠ defaultMessageThemeColor) →
      Config.Validate c d = .error .userMentionTargetURLs ∨
      Config.Validate c d = .error .userMentionTitle ∨
      Config.Validate c d = .error .userMentionThemeColor) ∧
    (c.TargetURLs = [] ∧ c.MessageTitle = "" ∧ c.ThemeColor = defaultMessageThemeColor →
      Config.Validate c d ≠ .error .userMentionTargetURLs ∧
      Config.Validate c d ≠ .error .userMentionTitle ∧
      Config.Validate c d ≠ .error .userMentionThemeColor) := by
  constructor
  · intro hdev
    unfold Config.Validate
    rw [hm]
    by_cases h1 : c.TargetURLs = []
    · by_cases h2 : c.MessageTitle = ""
      · have h3 : c.ThemeColor ≠ defaultMessageThemeColor := by tauto
        refine Or.inr (Or.inr ?_)
        rw [check_neg (by simp [h1]), exbind_ok, check_neg (by simp [h2]), exbind_ok,
          check_pos h3, exbind_error]
      · refine Or.inr (Or.inl ?_)
        rw [check_neg (by simp [h1]), exbind_ok, check_pos h2, exbind_error]
        rfl
    · refine Or.inl ?_
      have hlen : c.TargetURLs.length > 0 := by
        cases hT : c.TargetURLs with
        | nil => exact absurd hT h1
        | cons x t => simp
      rw [check_pos hlen, exbind_error]
      rfl
  · rintro ⟨h1, h2, h3⟩
    have hV : Config.Validate c d = validateCommon c d := by
      unfold Config.Validate
      rw [hm, check_neg (by simp [h1]), exbind_ok, check_neg (by simp [h2]), exbind_ok,
        check_neg (by simp [h3]), exbind_ok]
    rw [hV]
    refine ⟨fun hEq => ?_, fun hEq => ?_, fun hEq => ?_⟩ <;>
      exact absurd (validateCommon_error c d _ hEq) (by simp)

/-- C5 witness: a mention-mode configuration with a target URL fails with
one of the mention-incompatibility errors. -/
theorem validate_mention_mode_witness :
    Config.Validate { baseConfig with
        UserMentions := some [{ ID := "uid", Name := "User" }],
        TargetURLs := [{ URL := "https://example.com", Description := "link" }],
        MessageText := "msg" } true = .error .userMentionTargetURLs ∨
    Config.Validate { baseConfig with
        UserMentions := some [{ ID := "uid", Name := "User" }],
        TargetURLs := [{ URL := "https://example.com", Description := "link" }],
        MessageText := "msg" } true = .error .userMentionTitle ∨
    Config.Validate { baseConfig with
        UserMentions := some [{ ID := "uid", Name := "User" }],
        TargetURLs := [{ URL := "https://example.com", Description := "link" }],
        MessageText := "msg" } true = .error .userMentionThemeColor :=
  (validate_mention_mode _ true [{ ID := "uid", Name := "User" }] rfl).1
    (Or.inl (by decide))

end Config

end Send2Teams
